import Mathlib

/-
  Verification development for the MUI X date-picker field core.

  Two source components are embedded:
  * the Format Parser (`buildSectionsFromFormat` and its helpers), which turns a
    format string into a list of typed sections, and
  * the Section State Engine (`useFieldState`), which owns the per-field state
    and implements section editing, day-clamp recovery and value publication.

  External collaborators (the calendar adapter, the value managers, the locale
  text and the boundaries provider) are modelled as records of functions, as the
  specification treats them as abstract capability contracts.  Helpers of the
  repository that live outside the embedded files (`useField.utils`) are
  modelled from the specification; each such definition carries a doc comment
  starting with "Modelled from the spec".
-/

namespace MuiX

/-! ## Format Parser: data model -/

/-- The section types of the format parser (`FieldSectionType`). -/
inductive SectionType where
  | year
  | month
  | day
  | weekDay
  | hours
  | minutes
  | seconds
  | meridiem
  | empty
deriving DecidableEq, Repr, BEq

/-- The content types of a section (`FieldSectionContentType`). -/
inductive ContentType where
  | digit
  | digitWithLetter
  | letter
deriving DecidableEq, Repr, BEq

/-- Static configuration attached to a format token in the adapter's
`formatTokenMap`: section type, content type and optional maximal digit
count. -/
structure SectionConfig where
  type : SectionType
  contentType : ContentType
  maxLength : Option Nat
deriving DecidableEq, Repr

/-- One editable unit of the formatted string, as produced by the format
parser (the `FieldSection` interface). -/
structure FieldSection where
  type : SectionType
  contentType : ContentType
  format : String
  maxLength : Option Nat
  value : String
  placeholder : String
  hasLeadingZerosInFormat : Bool
  hasLeadingZerosInInput : Bool
  startSeparator : String
  endSeparator : String
  modified : Bool
deriving DecidableEq, Repr

/-- The locale-text capability: per-section-type placeholder phrase
functions. -/
structure LocaleText where
  fieldYearPlaceholder : Nat → String → String
  fieldMonthPlaceholder : ContentType → String → String
  fieldDayPlaceholder : String → String
  fieldWeekDayPlaceholder : ContentType → String → String
  fieldHoursPlaceholder : String → String
  fieldMinutesPlaceholder : String → String
  fieldSecondsPlaceholder : String → String
  fieldMeridiemPlaceholder : String → String

/-- The calendar-adapter capability used by the format parser
(`MuiPickersAdapter`).  `now` models `utils.date(undefined)` and `nowTz`
models `utils.date(undefined, timezone)`.  `tokenHasLeadingZeros` is the
adapter-side answer to whether a token's canonical rendering carries leading
zeros (the spec: "ask the adapter whether this exact token's canonical
rendering has leading zeros"). -/
structure PickersAdapter (TDate : Type) where
  expandFormat : String → String
  escapedCharacters : Char × Char
  formatTokenMap : List (String × SectionConfig)
  formatByString : TDate → String → String
  isValid : TDate → Bool
  now : TDate
  nowTz : String → TDate
  tokenHasLeadingZeros : String → Bool

/-- Density of the rendered format. -/
inductive FormatDensity where
  | dense
  | spacious
deriving DecidableEq, Repr, BEq

/-- The parameter record of `buildSectionsFromFormat`. -/
structure BuildSectionsFromFormatParams (TDate : Type) where
  utils : PickersAdapter TDate
  format : String
  formatDensity : FormatDensity
  isRTL : Bool
  timezone : String
  shouldRespectLeadingZeros : Bool
  localeText : LocaleText
  localizedDigits : List String
  date : Option TDate
  enableAccessibleFieldDOMStructure : Bool

/-! ## Format Parser: format expansion (`expandFormat`) -/

/-- Worker of `expandFormat`.  At every call `next = e prev` holds; the source
keeps a counter starting at 10 which is decremented once per loop body and
aborts as soon as it becomes negative. -/
def expandFormatAux (e : String → String) : Nat → String → String → Except String String
  | overflow, prev, next =>
    if next = prev then Except.ok next
    else
      match overflow with
      | 0 => Except.error ("MUI X: The format expansion seems to be in an infinite loop. Please open an issue with the format passed to the picker component.")
      | k + 1 => expandFormatAux e k next (e next)

/-- The source function `expandFormat`: repeatedly apply the adapter's
`expandFormat` until a fixed point, guarded by the overflow counter 10. -/
def expandFormat (e : String → String) (format : String) : Except String String :=
  expandFormatAux e 10 format (e format)

theorem expandFormatAux_ok_fixed (e : String → String) :
    ∀ (n : Nat) (prev s : String),
      expandFormatAux e n prev (e prev) = Except.ok s → e s = s := by
  intro n
  induction n with
  | zero =>
    intro prev s h
    rw [expandFormatAux] at h
    by_cases hp : e prev = prev
    · rw [if_pos hp] at h
      cases h
      rw [hp, hp]
    · rw [if_neg hp] at h
      cases h
  | succ k ih =>
    intro prev s h
    rw [expandFormatAux] at h
    by_cases hp : e prev = prev
    · rw [if_pos hp] at h
      cases h
      rw [hp, hp]
    · rw [if_neg hp] at h
      exact ih (e prev) s h

theorem expandFormatAux_ok_of_fixed (e : String → String) :
    ∀ (n : Nat) (prev : String),
      (∃ k, k ≤ n ∧ e^[k + 1] prev = e^[k] prev) →
      ∃ s, expandFormatAux e n prev (e prev) = Except.ok s := by
  intro n
  induction n with
  | zero =>
    intro prev hex
    obtain ⟨k, hk, hfix⟩ := hex
    interval_cases k
    simp only [Nat.zero_add, Function.iterate_one, Function.iterate_zero, id_eq] at hfix
    refine ⟨prev, ?_⟩
    rw [expandFormatAux, if_pos hfix, hfix]
  | succ m ih =>
    intro prev hex
    obtain ⟨k, hk, hfix⟩ := hex
    by_cases hp : e prev = prev
    · refine ⟨prev, ?_⟩
      rw [expandFormatAux, if_pos hp, hp]
    · have hkpos : k ≠ 0 := by
        intro h0
        rw [h0] at hfix
        simp only [Nat.zero_add, Function.iterate_one, Function.iterate_zero, id_eq] at hfix
        exact hp hfix
      obtain ⟨k', rfl⟩ := Nat.exists_eq_succ_of_ne_zero hkpos
      have hstep : ∃ s, expandFormatAux e m (e prev) (e (e prev)) = Except.ok s := by
        apply ih (e prev)
        refine ⟨k', by omega, ?_⟩
        have h1 : e^[k' + 1] (e prev) = e^[k' + 1 + 1] prev := by
          simp only [Function.iterate_succ_apply]
        have h2 : e^[k'] (e prev) = e^[k' + 1] prev := by
          simp only [Function.iterate_succ_apply]
        rw [h1, h2]
        simpa using hfix
      obtain ⟨s, hs⟩ := hstep
      refine ⟨s, ?_⟩
      rw [expandFormatAux, if_neg hp]
      exact hs

theorem expandFormatAux_error_of_no_fixed (e : String → String) :
    ∀ (n : Nat) (prev : String),
      (∀ k, k ≤ n → e^[k + 1] prev ≠ e^[k] prev) →
      ∃ msg, expandFormatAux e n prev (e prev) = Except.error msg := by
  intro n
  induction n with
  | zero =>
    intro prev hall
    have h0 := hall 0 (Nat.le_refl 0)
    simp only [Nat.zero_add, Function.iterate_one, Function.iterate_zero, id_eq] at h0
    exact ⟨_, by rw [expandFormatAux, if_neg h0]⟩
  | succ m ih =>
    intro prev hall
    have h0 := hall 0 (Nat.zero_le _)
    simp only [Nat.zero_add, Function.iterate_one, Function.iterate_zero, id_eq] at h0
    have hstep := ih (e prev) ?_
    · obtain ⟨msg, hmsg⟩ := hstep
      refine ⟨msg, ?_⟩
      rw [expandFormatAux, if_neg h0]
      exact hmsg
    · intro k hk
      have h1 : e^[k + 1] (e prev) = e^[k + 1 + 1] prev := by
        simp only [Function.iterate_succ_apply]
      have h2 : e^[k] (e prev) = e^[k + 1] prev := by
        simp only [Function.iterate_succ_apply]
      rw [h1, h2]
      exact hall (k + 1) (by omega)

/-! ## Format Parser: escaped literal runs (`getEscapedPartsFromFormat`)

The source builds the regular expression `(\{start}[^\{end}]*\{end})+` with the
global flag and records `{start: match.index, end: lastIndex - 1}` for every
match.  We model the regex by scanning for runs of back-to-back quoted groups:
a group is the escape-start character, any characters other than the
escape-end character, and the escape-end character. -/

/-- Least index `j ≥ i` such that `cs[j] = c`. -/
def findCharFrom (cs : List Char) (c : Char) (i : Nat) : Option Nat :=
  match (cs.drop i).findIdx? (fun x => x == c) with
  | some j => some (i + j)
  | none => none

/-- End position (exclusive) of a single quoted group starting at `i`, when
one starts there. -/
def quotedGroupEnd (cs : List Char) (startCh endCh : Char) (i : Nat) : Option Nat :=
  if cs[i]? = some startCh then
    match findCharFrom cs endCh (i + 1) with
    | some j => some (j + 1)
    | none => none
  else none

/-- End position (exclusive) of the maximal run of back-to-back quoted groups
starting at `i` (the `+` of the regex), when at least one group starts
there.  Fuel-driven; a fuel of at least `cs.length` is always sufficient
because each group spans at least two characters. -/
def quotedRunEnd (cs : List Char) (startCh endCh : Char) : Nat → Nat → Option Nat
  | 0, _ => none
  | fuel + 1, i =>
    match quotedGroupEnd cs startCh endCh i with
    | none => none
    | some j =>
      match quotedRunEnd cs startCh endCh fuel j with
      | some k => some k
      | none => some j

/-- Scan the whole character list for quoted runs, collecting
`(start, end)` pairs with inclusive `end`, exactly as the source's regex
loop does. -/
def getEscapedPartsAux (cs : List Char) (startCh endCh : Char) : Nat → Nat → List (Nat × Nat)
  | 0, _ => []
  | fuel + 1, i =>
    if i < cs.length then
      match quotedRunEnd cs startCh endCh (cs.length + 1) i with
      | some j => (i, j - 1) :: getEscapedPartsAux cs startCh endCh fuel j
      | none => getEscapedPartsAux cs startCh endCh fuel (i + 1)
    else []

/-- The source function `getEscapedPartsFromFormat`. -/
def getEscapedPartsFromFormat {TDate : Type} (utils : PickersAdapter TDate)
    (expandedFormat : String) : List (Nat × Nat) :=
  getEscapedPartsAux expandedFormat.data utils.escapedCharacters.1
    utils.escapedCharacters.2 (expandedFormat.data.length + 1) 0

/-! ## Format Parser: token matching

The source tests `^(tok1|tok2|...)` (tokens sorted by decreasing length,
stable) against the current suffix, with the JavaScript `g`-flag semantics:
the regex object's `lastIndex` survives between calls, a test starting at a
non-zero `lastIndex` always fails (the `^` anchor cannot match there) and
resets `lastIndex` to 0, and a successful test sets `lastIndex` to the match
length. -/

/-- Insert a key into a length-descending sorted list, keeping insertion
order among keys of equal length (JavaScript's stable sort). -/
def insertByLen (k : String) : List String → List String
  | [] => [k]
  | x :: xs => if x.length ≤ k.length then k :: x :: xs else x :: insertByLen k xs

/-- The token keys of the adapter's `formatTokenMap`, sorted by decreasing
length (stable). -/
def sortedTokenKeys (map : List (String × SectionConfig)) : List String :=
  (map.map Prod.fst).foldr insertByLen []

/-- First key in the sorted list that is a non-empty prefix of the scanned
characters; its length is the regex match length.  (A degenerate adapter with
an empty-string token key would make the source loop forever; such keys are
ignored here.) -/
def firstMatchingToken (keys : List String) (s : List Char) : Option Nat :=
  match keys.find? (fun k => !k.isEmpty && k.data.isPrefixOf s) with
  | some k => some k.length
  | none => none

theorem firstMatchingToken_pos (keys : List String) (s : List Char) (L : Nat)
    (h : firstMatchingToken keys s = some L) : 0 < L := by
  rw [firstMatchingToken] at h
  cases hf : keys.find? (fun k => !k.isEmpty && k.data.isPrefixOf s) with
  | none => rw [hf] at h; cases h
  | some k =>
    rw [hf] at h
    cases h
    have hp := List.find?_some hf
    simp only [Bool.and_eq_true, Bool.not_eq_true'] at hp
    have : k ≠ "" := by
      intro h0
      rw [h0] at hp
      simp [String.isEmpty] at hp
    cases k with
    | mk data =>
      cases data with
      | nil => exact absurd rfl this
      | cons c cs => simp [String.length]

/-- JavaScript `regExp.test` with the `g` flag on a `^`-anchored pattern:
returns the match length (when `lastIndex` is zero and a token matches) and
the updated `lastIndex`. -/
def jsTokenTest (keys : List String) (lastIndex : Nat) (s : List Char) : Option Nat × Nat :=
  if lastIndex = 0 then
    match firstMatchingToken keys s with
    | some L => (some L, L)
    | none => (none, 0)
  else (none, 0)

/-! ## Format Parser: section construction (`createSection`) -/

/-- Modelled from the spec: `getDateSectionConfigFromFormatToken` of
`useField.utils` (not under `src/`) looks up the static
section-type/content-type/max-length configuration for the token in the
adapter's `formatTokenMap`, failing on an unknown token. -/
def getDateSectionConfigFromFormatToken {TDate : Type} (utils : PickersAdapter TDate)
    (formatToken : String) : Except String SectionConfig :=
  match utils.formatTokenMap.find? (fun kv => kv.1 = formatToken) with
  | some kv => Except.ok kv.2
  | none => Except.error ("MUI X: The token " ++ formatToken ++ " is not supported by the Date and Time Pickers.")

/-- Modelled from the spec: `doesSectionFormatHaveLeadingZeros` of
`useField.utils` (not under `src/`) asks the adapter whether this exact
token's canonical rendering has leading zeros. -/
def doesSectionFormatHaveLeadingZeros {TDate : Type} (utils : PickersAdapter TDate)
    (_timezone : String) (_contentType : ContentType) (_type : SectionType)
    (token : String) : Bool :=
  utils.tokenHasLeadingZeros token

/-- Modelled from the spec: `removeLocalizedDigits` of `useField.utils` (not
under `src/`) maps localized digit glyphs back to Latin digits;
`localizedDigits` lists the ten glyphs indexed 0-9. -/
def removeLocalizedDigits (s : String) (localizedDigits : List String) : String :=
  String.mk (s.data.map (fun c =>
    match (localizedDigits.enum.find? (fun q => q.2 = String.mk [c])) with
    | some q => Char.ofNat (48 + q.1)
    | none => c))

/-- Modelled from the spec: `applyLocalizedDigits` of `useField.utils` (not
under `src/`) renders Latin digits with the locale's digit glyphs. -/
def applyLocalizedDigits (s : String) (localizedDigits : List String) : String :=
  String.join (s.data.map (fun c =>
    if 48 ≤ c.toNat ∧ c.toNat ≤ 57 then
      (localizedDigits[c.toNat - 48]?).getD (String.mk [c])
    else String.mk [c]))

/-- Modelled from the spec: `cleanLeadingZeros` of `useField.utils` (not
under `src/`) strips incidentally-produced leading zeros and re-pads to the
given size so the displayed width stays consistent. -/
def cleanLeadingZeros (valueStr : String) (size : Nat) : String :=
  let stripped := String.mk (valueStr.data.dropWhile (fun c => c == '0'))
  let core := if stripped = "" then "0" else stripped
  String.mk (List.replicate (size - core.length) '0') ++ core

/-- The source function `getSectionPlaceholder`. -/
def getSectionPlaceholder {TDate : Type} (utils : PickersAdapter TDate)
    (timezone : String) (localeText : LocaleText) (sectionConfig : SectionConfig)
    (sectionFormat : String) : String :=
  match sectionConfig.type with
  | SectionType.year =>
    localeText.fieldYearPlaceholder
      (utils.formatByString (utils.nowTz timezone) sectionFormat).length sectionFormat
  | SectionType.month =>
    localeText.fieldMonthPlaceholder sectionConfig.contentType sectionFormat
  | SectionType.day => localeText.fieldDayPlaceholder sectionFormat
  | SectionType.weekDay =>
    localeText.fieldWeekDayPlaceholder sectionConfig.contentType sectionFormat
  | SectionType.hours => localeText.fieldHoursPlaceholder sectionFormat
  | SectionType.minutes => localeText.fieldMinutesPlaceholder sectionFormat
  | SectionType.seconds => localeText.fieldSecondsPlaceholder sectionFormat
  | SectionType.meridiem => localeText.fieldMeridiemPlaceholder sectionFormat
  | SectionType.empty => sectionFormat

/-- The source function `createSection`. -/
def createSection {TDate : Type} (p : BuildSectionsFromFormatParams TDate)
    (now : TDate) (token : String) (startSeparator : String) :
    Except String FieldSection := do
  if token = "" then
    throw ("MUI X: Should not call `commitToken` with an empty token")
  let sectionConfig ← getDateSectionConfigFromFormatToken p.utils token
  let hasLeadingZerosInFormat := doesSectionFormatHaveLeadingZeros p.utils p.timezone
    sectionConfig.contentType sectionConfig.type token
  let hasLeadingZerosInInput :=
    if p.shouldRespectLeadingZeros then hasLeadingZerosInFormat
    else sectionConfig.contentType == ContentType.digit
  let isValidDate :=
    match p.date with
    | some d => p.utils.isValid d
    | none => false
  let sectionValue0 :=
    match p.date with
    | some d => if p.utils.isValid d then p.utils.formatByString d token else ""
    | none => ""
  let (sectionValue, maxLength) ←
    if hasLeadingZerosInInput then
      if hasLeadingZerosInFormat then
        pure (sectionValue0,
          some (if sectionValue0 = "" then (p.utils.formatByString now token).length
                else sectionValue0.length))
      else
        match sectionConfig.maxLength with
        | none =>
          throw ("MUI X: The token " ++ token ++ " should have a maxDigitNumber property on its adapter")
        | some maxLen =>
          if isValidDate then
            pure (applyLocalizedDigits
              (cleanLeadingZeros (removeLocalizedDigits sectionValue0 p.localizedDigits) maxLen)
              p.localizedDigits, some maxLen)
          else pure (sectionValue0, some maxLen)
    else pure (sectionValue0, (none : Option Nat))
  pure
    { type := sectionConfig.type
      contentType := sectionConfig.contentType
      format := token
      maxLength := maxLength
      value := sectionValue
      placeholder := getSectionPlaceholder p.utils p.timezone p.localeText sectionConfig token
      hasLeadingZerosInFormat := hasLeadingZerosInFormat
      hasLeadingZerosInInput := hasLeadingZerosInInput
      startSeparator := startSeparator
      endSeparator := ""
      modified := false }

/-! ## Format Parser: the scanning loop of `buildSections` -/

/-- A character matching the JavaScript class `[A-Za-z]`. -/
def isAsciiLetter (c : Char) : Bool :=
  (65 ≤ c.toNat && c.toNat ≤ 90) || (97 ≤ c.toNat && c.toNat ≤ 122)

/-- Append a character to the `endSeparator` of the last section. -/
def appendToLastEndSeparator (sections : List FieldSection) (ch : Char) : List FieldSection :=
  match sections with
  | [] => []
  | [s] => [{ s with endSeparator := s.endSeparator ++ String.mk [ch] }]
  | s :: rest => s :: appendToLastEndSeparator (rest) ch

/-- One non-matching loop iteration of `buildSections` (lines 228-249 of the
source): skip escape boundaries; otherwise flush the pending token into a
section and route the character into `startSeparator` or the previous
section's `endSeparator`. -/
def scanFlushStep {TDate : Type} (p : BuildSectionsFromFormatParams TDate) (now : TDate)
    (ch : Char) (isEscapeBoundary : Bool) (curr startSep : List Char)
    (sections : List FieldSection) :
    Except String (List FieldSection × List Char × List Char) := do
  if isEscapeBoundary then
    pure (sections, startSep, curr)
  else do
    let sections1 ←
      if curr ≠ [] then do
        let sec ← createSection p now (String.mk curr) (String.mk startSep)
        pure (sections ++ [sec])
      else pure sections
    if sections1.isEmpty then
      pure (sections1, startSep ++ [ch], [])
    else
      pure (appendToLastEndSeparator sections1 ch, [], [])

/-- The character-scanning loop of `buildSections`.  State: current index
`i`, the regex's persistent `lastIndex`, the pending token characters, the
pending start separator and the committed sections.  Fuel-driven; fuel
`cs.length` is always sufficient because every step advances `i` by at least
one. -/
def scanFormat {TDate : Type} (p : BuildSectionsFromFormatParams TDate) (now : TDate)
    (escapedParts : List (Nat × Nat)) (cs : List Char) :
    Nat → Nat → Nat → List Char → List Char → List FieldSection →
    Except String (List FieldSection × List Char × List Char)
  | 0, i, _, curr, startSep, sections =>
    if i < cs.length then Except.error ("internal: scan fuel exhausted")
    else Except.ok (sections, startSep, curr)
  | fuel + 1, i, lastIndex, curr, startSep, sections =>
    if hi : i < cs.length then
      let escapedPart := escapedParts.find? (fun part => part.1 ≤ i && i ≤ part.2)
      let ch := cs[i]
      let isEscapedChar := escapedPart.isSome
      let potentialToken := curr ++ cs.drop i
      let (regExpMatch, lastIndex') := jsTokenTest (sortedTokenKeys p.utils.formatTokenMap)
        lastIndex potentialToken
      match regExpMatch with
      | some L =>
        if !isEscapedChar && isAsciiLetter ch then
          scanFormat p now escapedParts cs fuel (i + L) lastIndex'
            (potentialToken.take L) startSep sections
        else do
          let isEscapeBoundary :=
            match escapedPart with
            | some part => part.1 == i || part.2 == i
            | none => false
          let (sections', startSep', curr') ←
            scanFlushStep p now ch isEscapeBoundary curr startSep sections
          scanFormat p now escapedParts cs fuel (i + 1) lastIndex' curr' startSep' sections'
      | none => do
        let isEscapeBoundary :=
          match escapedPart with
          | some part => part.1 == i || part.2 == i
          | none => false
        let (sections', startSep', curr') ←
          scanFlushStep p now ch isEscapeBoundary curr startSep sections
        scanFormat p now escapedParts cs fuel (i + 1) lastIndex' curr' startSep' sections'
    else Except.ok (sections, startSep, curr)

/-- The synthetic section emitted for a format with no tokenizable sections
(lines 258-270 of the source). -/
def syntheticEmptySection (startSeparator : String) : FieldSection :=
  { type := SectionType.empty
    contentType := ContentType.letter
    maxLength := none
    format := ""
    value := ""
    placeholder := ""
    hasLeadingZerosInFormat := false
    hasLeadingZerosInInput := false
    startSeparator := startSeparator
    endSeparator := ""
    modified := false }

/-- The source function `buildSections`: run the scan, flush a trailing token, and
fall back to a single synthetic `empty` section when no section was committed
but separator text accumulated. -/
def buildSections {TDate : Type} (p : BuildSectionsFromFormatParams TDate)
    (expandedFormat : String) (escapedParts : List (Nat × Nat)) :
    Except String (List FieldSection) := do
  let now := p.utils.now
  let cs := expandedFormat.data
  let (sections0, startSep, curr) ← scanFormat p now escapedParts cs cs.length 0 0 [] [] []
  let sections ←
    if curr ≠ [] then do
      let sec ← createSection p now (String.mk curr) (String.mk startSep)
      pure (sections0 ++ [sec])
    else pure sections0
  if sections.isEmpty && startSep.length > 0 then
    pure [syntheticEmptySection (String.mk startSep)]
  else pure sections

/-! ## Format Parser: post-processing and the top-level entry point -/

/-- The separator clean-up of `postProcessSections`: RTL isolation marks for
separators containing whitespace, then spacious padding for the single
date-delimiter characters. -/
def cleanSeparator {TDate : Type} (p : BuildSectionsFromFormatParams TDate)
    (separator : String) : String :=
  let s1 :=
    if p.isRTL && separator.contains ' ' then "⁩" ++ separator ++ "⁦"
    else separator
  if p.formatDensity == FormatDensity.spacious && (s1 = "/" ∨ s1 = "." ∨ s1 = "-") then
    " " ++ s1 ++ " "
  else s1

/-- The source function `postProcessSections`. -/
def postProcessSections {TDate : Type} (p : BuildSectionsFromFormatParams TDate)
    (sections : List FieldSection) : List FieldSection :=
  sections.map (fun sec =>
    { sec with
        startSeparator := cleanSeparator p sec.startSeparator
        endSeparator := cleanSeparator p sec.endSeparator })

/-- The source function `buildSectionsFromFormat`: expand the format, reverse
whitespace-delimited groups for RTL accessible DOM structures, locate escaped
runs, tokenize, and post-process separators. -/
def buildSectionsFromFormat {TDate : Type} (p : BuildSectionsFromFormatParams TDate) :
    Except String (List FieldSection) := do
  let expanded ← expandFormat p.utils.expandFormat p.format
  let expandedFormat :=
    if p.isRTL && p.enableAccessibleFieldDOMStructure then
      String.intercalate (" ") (expanded.splitOn (" ")).reverse
    else expanded
  let escapedParts := getEscapedPartsFromFormat p.utils expandedFormat
  let sections ← buildSections p expandedFormat escapedParts
  pure (postProcessSections p sections)

deriving instance DecidableEq for Except

/-! ## Format Parser: scan lemmas for literal-only formats -/

theorem except_bind_ok {ε α β : Type} (a : α) (f : α → Except ε β) :
    (Except.ok a >>= f : Except ε β) = f a := rfl

theorem except_pure_eq {ε α : Type} (a : α) : (pure a : Except ε α) = Except.ok a := rfl

theorem quotedRunEnd_none (cs : List Char) (startCh endCh : Char) (fuel i : Nat)
    (h : quotedGroupEnd cs startCh endCh i = none) :
    quotedRunEnd cs startCh endCh fuel i = none := by
  cases fuel with
  | zero => rfl
  | succ f => rw [quotedRunEnd, h]

theorem getEscapedPartsAux_no_quote (cs : List Char) (startCh endCh : Char)
    (hq : ∀ c ∈ cs, c ≠ startCh) :
    ∀ (fuel i : Nat), getEscapedPartsAux cs startCh endCh fuel i = [] := by
  intro fuel
  induction fuel with
  | zero => intro i; rfl
  | succ f ih =>
    intro i
    rw [getEscapedPartsAux]
    by_cases hi : i < cs.length
    · have hgroup : quotedGroupEnd cs startCh endCh i = none := by
        rw [quotedGroupEnd]
        have hget : cs[i]? = some cs[i] := List.getElem?_eq_getElem hi
        rw [hget]
        have hne : cs[i] ≠ startCh := hq cs[i] (List.getElem_mem hi)
        simp [hne]
      rw [if_pos hi, quotedRunEnd_none cs startCh endCh _ i hgroup]
      exact ih (i + 1)
    · rw [if_neg hi]

theorem scanFormat_literal {TDate : Type} (p : BuildSectionsFromFormatParams TDate)
    (now : TDate) (cs : List Char) (hl : ∀ c ∈ cs, isAsciiLetter c = false) :
    ∀ (fuel i lastIndex : Nat) (startSep : List Char), i + fuel = cs.length →
      scanFormat p now [] cs fuel i lastIndex [] startSep [] =
        Except.ok ([], startSep ++ cs.drop i, []) := by
  intro fuel
  induction fuel with
  | zero =>
    intro i lastIndex startSep hlen
    rw [scanFormat, if_neg (by omega)]
    rw [List.drop_of_length_le (by omega), List.append_nil]
  | succ f ih =>
    intro i lastIndex startSep hlen
    have hi : i < cs.length := by omega
    have hletter : isAsciiLetter cs[i] = false := hl cs[i] (List.getElem_mem hi)
    have hdrop : cs.drop i = cs[i] :: cs.drop (i + 1) := List.drop_eq_getElem_cons hi
    have hrest : (startSep ++ [cs[i]]) ++ cs.drop (i + 1) = startSep ++ cs.drop i := by
      rw [hdrop, List.append_assoc, List.singleton_append]
    have hflush :
        scanFlushStep p now cs[i] false [] startSep [] =
          Except.ok ([], startSep ++ [cs[i]], []) := rfl
    rw [scanFormat]
    rw [dif_pos hi]
    simp only [List.find?_nil, Option.isSome_none, Bool.false_and, Bool.not_false,
      Bool.true_and, hletter]
    cases hm : (jsTokenTest (sortedTokenKeys p.utils.formatTokenMap) lastIndex
        ([] ++ cs.drop i)).1 with
    | some L =>
      simp only [hm, Bool.and_false]
      rw [if_neg (by simp [hletter])]
      rw [hflush]
      simp only [except_bind_ok]
      rw [ih (i + 1) _ (startSep ++ [cs[i]]) (by omega), hrest]
    | none =>
      simp only [hm]
      rw [hflush]
      simp only [except_bind_ok]
      rw [ih (i + 1) _ (startSep ++ [cs[i]]) (by omega), hrest]

theorem string_mk_data (s : String) : String.mk s.data = s := by
  cases s
  rfl

/-! ## Concrete format-parser instantiation used by witnesses and
counterexamples -/

/-- A small concrete token map for a model adapter. -/
def modelTokenMap : List (String × SectionConfig) :=
  [("MM", ⟨SectionType.month, ContentType.digit, some 2⟩),
   ("M", ⟨SectionType.month, ContentType.digit, some 2⟩),
   ("dd", ⟨SectionType.day, ContentType.digit, some 2⟩),
   ("yyyy", ⟨SectionType.year, ContentType.digit, some 4⟩)]

/-- A concrete calendar adapter over a trivial date type, used to instantiate
the parser theorems. -/
def modelAdapter : PickersAdapter Unit :=
  { expandFormat := fun s => s
    escapedCharacters := (Char.ofNat 39, Char.ofNat 39)
    formatTokenMap := modelTokenMap
    formatByString := fun _ _ => "1"
    isValid := fun _ => true
    now := ()
    nowTz := fun _ => ()
    tokenHasLeadingZeros := fun t => t == "MM" || t == "dd" || t == "yyyy" }

/-- Concrete locale text used to instantiate the parser theorems. -/
def modelLocaleText : LocaleText :=
  { fieldYearPlaceholder := fun n _ => String.mk (List.replicate n 'Y')
    fieldMonthPlaceholder := fun _ _ => "MMMM"
    fieldDayPlaceholder := fun _ => "DD"
    fieldWeekDayPlaceholder := fun _ _ => "EEEE"
    fieldHoursPlaceholder := fun _ => "hh"
    fieldMinutesPlaceholder := fun _ => "mm"
    fieldSecondsPlaceholder := fun _ => "ss"
    fieldMeridiemPlaceholder := fun _ => "aa" }

/-- Concrete parameter record for the parser, varying the format and the
leading-zero policy. -/
def modelParams (fmt : String) (respect : Bool) : BuildSectionsFromFormatParams Unit :=
  { utils := modelAdapter
    format := fmt
    formatDensity := FormatDensity.dense
    isRTL := false
    timezone := "default"
    shouldRespectLeadingZeros := respect
    localeText := modelLocaleText
    localizedDigits := ["0", "1", "2", "3", "4", "5", "6", "7", "8", "9"]
    date := none
    enableAccessibleFieldDOMStructure := false }

/-! ## Claim C5 -/

/-- C5: `expandFormat` repeatedly applies the adapter's expansion until a
fixed point.  Any returned string is a fixed point of the expansion rule;
whenever the iteration of the rule stabilises within the overflow budget of
10 re-expansions the fixed point is returned without error; and when it never
stabilises within that budget, the format-expansion-overflow error is
raised. -/
theorem expandFormat_fixed_point_spec (e : String → String) (format : String) :
    (∀ s, expandFormat e format = Except.ok s → e s = s) ∧
    ((∃ k, k ≤ 10 ∧ e^[k + 1] format = e^[k] format) →
      ∃ s, expandFormat e format = Except.ok s) ∧
    ((∀ k, k ≤ 10 → e^[k + 1] format ≠ e^[k] format) →
      ∃ msg, expandFormat e format = Except.error msg) := by
  refine ⟨?_, ?_, ?_⟩
  · intro s h
    exact expandFormatAux_ok_fixed e 10 format s h
  · intro hex
    exact expandFormatAux_ok_of_fixed e 10 format hex
  · intro hall
    exact expandFormatAux_error_of_no_fixed e 10 format hall

/-- Witness for C5 at a concrete expansion rule that stabilises after one
application. -/
theorem expandFormat_fixed_point_spec_witness :
    ∃ s, expandFormat (fun _ => "x") "y" = Except.ok s :=
  (expandFormat_fixed_point_spec (fun _ => "x") "y").2.1 ⟨1, by omega, rfl⟩

/-! ## Claim C6 -/

/-- Counterexample for C6: on the empty format (which trivially contains no
tokenizable sections) `buildSections` returns the empty section list, not a
single synthetic `empty` section, because the synthetic section is only
emitted when the accumulated start separator is non-empty. -/
theorem buildSections_empty_format_cex :
    buildSections (modelParams ("") true) "" (getEscapedPartsFromFormat modelAdapter ("")) =
      Except.ok ([] : List FieldSection) ∧
    ¬ ∃ s : FieldSection,
        buildSections (modelParams ("") true) "" (getEscapedPartsFromFormat modelAdapter ("")) =
          Except.ok [s] := by
  constructor
  · decide
  · rintro ⟨s, hs⟩
    have h0 : buildSections (modelParams ("") true) ""
        (getEscapedPartsFromFormat modelAdapter ("")) = Except.ok ([] : List FieldSection) := by
      decide
    rw [h0] at hs
    simp at hs

/-- C6 (amended): for every format whose expanded form contains no
tokenizable sections and at least one literal character (here: no ASCII
letter and no escape-start character occurs), `buildSections` emits exactly
one synthetic `empty` section holding the whole literal as `startSeparator`
with empty value, placeholder, format and end separator; when no literal
characters accumulate — the empty format — it emits no sections at all. -/
theorem buildSections_pure_literal {TDate : Type} (p : BuildSectionsFromFormatParams TDate)
    (fmt : String)
    (hl : ∀ c ∈ fmt.data, isAsciiLetter c = false)
    (hq : ∀ c ∈ fmt.data, c ≠ p.utils.escapedCharacters.1) :
    buildSections p fmt (getEscapedPartsFromFormat p.utils fmt) =
      Except.ok (if fmt = "" then [] else [syntheticEmptySection fmt]) := by
  have hparts : getEscapedPartsFromFormat p.utils fmt = [] := by
    rw [getEscapedPartsFromFormat]
    exact getEscapedPartsAux_no_quote fmt.data _ _ hq _ 0
  rw [hparts, buildSections]
  rw [scanFormat_literal p p.utils.now fmt.data hl fmt.data.length 0 0 [] (by omega)]
  by_cases hfmt : fmt = ""
  · subst hfmt
    rfl
  · have hdata : fmt.data ≠ [] := by
      intro h0
      apply hfmt
      have := string_mk_data fmt
      rw [h0] at this
      exact this.symm
    have hlen : 0 < fmt.data.length := List.length_pos.mpr hdata
    rw [if_neg hfmt]
    simp only [except_bind_ok, List.drop_zero, List.nil_append]
    simp [except_bind_ok, except_pure_eq, List.isEmpty_nil, hlen, string_mk_data]
    simp only [String.length]
    omega

/-- Witness for C6 at the concrete literal-only format "--". -/
theorem buildSections_pure_literal_witness :
    buildSections (modelParams ("--") true) "--"
        (getEscapedPartsFromFormat modelAdapter ("--")) =
      Except.ok [syntheticEmptySection ("--")] := by
  have h := buildSections_pure_literal (modelParams ("--") true) ("--")
    (by decide) (by decide)
  simpa using h

/-! ## Claim C7 -/

/-- Counterexample for C7: two parser runs that agree on the format, date,
locale text, localized digits, adapter, timezone, density and both direction
flags — every input the claim lists — but differ in the caller's
`shouldRespectLeadingZeros` policy produce different section lists, so the
parser is not deterministic with respect to the claimed input list alone. -/
theorem buildSectionsFromFormat_input_list_cex :
    (modelParams ("M") true).format = (modelParams ("M") false).format ∧
    (modelParams ("M") true).date = (modelParams ("M") false).date ∧
    (modelParams ("M") true).localeText = (modelParams ("M") false).localeText ∧
    (modelParams ("M") true).localizedDigits = (modelParams ("M") false).localizedDigits ∧
    (modelParams ("M") true).utils = (modelParams ("M") false).utils ∧
    (modelParams ("M") true).timezone = (modelParams ("M") false).timezone ∧
    (modelParams ("M") true).formatDensity = (modelParams ("M") false).formatDensity ∧
    (modelParams ("M") true).isRTL = (modelParams ("M") false).isRTL ∧
    (modelParams ("M") true).enableAccessibleFieldDOMStructure =
      (modelParams ("M") false).enableAccessibleFieldDOMStructure ∧
    buildSectionsFromFormat (modelParams ("M") true) ≠
      buildSectionsFromFormat (modelParams ("M") false) := by
  refine ⟨rfl, rfl, rfl, rfl, rfl, rfl, rfl, rfl, rfl, ?_⟩
  decide

/-- C7 (amended): `buildSectionsFromFormat` is deterministic with respect to
its full input record — format, date, locale text, localized digits, adapter,
timezone, density, both direction flags and the leading-zero policy; two runs
agreeing on all of these yield identical section lists, with no hidden state
carried between parses. -/
theorem buildSectionsFromFormat_deterministic {TDate : Type}
    (p₁ p₂ : BuildSectionsFromFormatParams TDate)
    (h1 : p₁.utils = p₂.utils)
    (h2 : p₁.format = p₂.format)
    (h3 : p₁.formatDensity = p₂.formatDensity)
    (h4 : p₁.isRTL = p₂.isRTL)
    (h5 : p₁.timezone = p₂.timezone)
    (h6 : p₁.shouldRespectLeadingZeros = p₂.shouldRespectLeadingZeros)
    (h7 : p₁.localeText = p₂.localeText)
    (h8 : p₁.localizedDigits = p₂.localizedDigits)
    (h9 : p₁.date = p₂.date)
    (h10 : p₁.enableAccessibleFieldDOMStructure = p₂.enableAccessibleFieldDOMStructure) :
    buildSectionsFromFormat p₁ = buildSectionsFromFormat p₂ := by
  cases p₁
  cases p₂
  simp only at h1 h2 h3 h4 h5 h6 h7 h8 h9 h10
  subst h1 h2 h3 h4 h5 h6 h7 h8 h9 h10
  rfl

/-- Witness for C7 at a concrete parameter record compared with itself. -/
theorem buildSectionsFromFormat_deterministic_witness :
    buildSectionsFromFormat (modelParams ("MM/dd/yyyy") true) =
      buildSectionsFromFormat (modelParams ("MM/dd/yyyy") true) :=
  buildSectionsFromFormat_deterministic (modelParams ("MM/dd/yyyy") true)
    (modelParams ("MM/dd/yyyy") true) rfl rfl rfl rfl rfl rfl rfl rfl rfl rfl

/-! ## Section State Engine (`useFieldState`): data model

The engine is generic in the value type `TValue`, the date type `TDate`, the
calendar adapter, the value manager and the field value manager, exactly as
the source hook is.  The sections it manipulates are the v6-interface
sections carrying `dateSectionName` and the `edited` flag. -/

/-- The date-section names of the engine's sections (`MuiDateSectionName`). -/
inductive DateSectionName where
  | year
  | month
  | day
  | weekDay
  | hours
  | minutes
  | seconds
  | meridiem
deriving DecidableEq, Repr, Inhabited

/-- One section as manipulated by the engine.  `start` and `stop` are the
position properties recomputed by `addPositionPropertiesToSections`. -/
structure ESection where
  dateSectionName : DateSectionName
  value : String
  placeholder : String
  startSeparator : String
  endSeparator : String
  edited : Bool
  start : Nat
  stop : Nat
deriving DecidableEq, Repr, Inhabited

/-- The adapter capabilities used by the engine: parsing, validity, and
per-component getters and setters. -/
structure FieldAdapter (TDate : Type) where
  parse : String → String → Option TDate
  isValid : Option TDate → Bool
  getYear : TDate → Int
  getMonth : TDate → Int
  getDate : TDate → Int
  getHours : TDate → Int
  getMinutes : TDate → Int
  getSeconds : TDate → Int
  setYear : TDate → Int → TDate
  setMonth : TDate → Int → TDate
  setDate : TDate → Int → TDate
  setHours : TDate → Int → TDate
  setMinutes : TDate → Int → TDate
  setSeconds : TDate → Int → TDate

/-- The boundaries capability: the externally supplied maximum day for the
month and year of a given date. -/
structure Boundaries (TDate : Type) where
  maxDayFor : TDate → Int

/-- The per-date manager returned by
`fieldValueManager.getActiveDateManager`: the active date, the
guaranteed-valid reference date it merges onto, and the translation of a new
active date into a `(value, referenceValue)` pair. -/
structure ActiveDateManager (TValue TDate : Type) where
  activeDate : Option TDate
  referenceActiveDate : TDate
  getNewValueFromNewActiveDate : Option TDate → TValue × TValue

/-- The live state owned by the engine (`UseFieldState`). -/
structure EngineState (TValue : Type) where
  sections : List ESection
  value : TValue
  referenceValue : TValue
  tempValueStrAndroid : Option String
deriving DecidableEq

/-- The field-value-manager capability contract. -/
structure FieldValueManager (TValue TDate : Type) where
  getSectionsFromValue :
    FieldAdapter TDate → Option (List ESection) → TValue → String → List ESection
  updateReferenceValue : FieldAdapter TDate → TValue → TValue → TValue
  getActiveDateManager :
    FieldAdapter TDate → EngineState TValue → ESection → ActiveDateManager TValue TDate
  getActiveDateSections : List ESection → ESection → List ESection

/-- The environment the engine closes over: adapter, format, boundaries,
value-manager bits and the field value manager. -/
structure EngineEnv (TValue TDate : Type) where
  utils : FieldAdapter TDate
  format : String
  boundaries : Boundaries TDate
  emptyValue : TValue
  areValuesEqual : TValue → TValue → Bool
  fvm : FieldValueManager TValue TDate

/-- Inclusive selected-section index range
(`FieldSelectedSectionsIndexes`). -/
structure SelIdx where
  startIndex : Nat
  endIndex : Nat
deriving DecidableEq, Repr

/-- The observable outcome of an engine operation: the new state, the value
passed to the external change notification (when one fired), and the
collapsed selection index when a multi-section selection was narrowed. -/
structure EngineResult (TValue : Type) where
  state : EngineState TValue
  published : Option TValue
  collapsedSelection : Option Nat
deriving DecidableEq

/-! ## Section State Engine: helpers modelled from the spec -/

/-- Modelled from the spec: `addPositionPropertiesToSections` of
`useField.utils` (not under `src/`) recomputes each section's start/end
offsets in the rendered string, whose layout is the §3 invariant
concatenation of `startSeparator`, the value (or the placeholder when the
value is empty) and `endSeparator`. -/
def addPositionPropertiesToSections (sections : List ESection) : List ESection :=
  (sections.foldl
    (fun (acc : Nat × List ESection) s =>
      let rendered := if s.value = "" then s.placeholder else s.value
      let width := s.startSeparator.length + rendered.length + s.endSeparator.length
      (acc.1 + width, acc.2 ++ [{ s with start := acc.1, stop := acc.1 + width }]))
    (0, [])).2

/-- The source function `setSectionValue`: overwrite one section's text, mark it
edited, and recompute position properties.  (JavaScript would grow the array
on an out-of-range index; the engine only ever uses in-range selection
indexes, and an out-of-range index leaves the list unchanged here.) -/
def setSectionValue (sections : List ESection) (sectionIndex : Nat)
    (newSectionValue : String) : List ESection :=
  addPositionPropertiesToSections
    (match sections[sectionIndex]? with
     | some s => sections.set sectionIndex { s with value := newSectionValue, edited := true }
     | none => sections)

/-- Modelled from the spec: `createDateStrFromSections` of `useField.utils`
(not under `src/`) concatenates the sections of one date unit into the string
handed to the adapter's parser (§4.2: "parse the concatenation of all
sections belonging to the same logical date unit").  The source's RTL flag is
`false` at every call site embedded here and is omitted. -/
def createDateStrFromSections (sections : List ESection) : String :=
  String.join (sections.map (fun s => s.startSeparator ++ s.value ++ s.endSeparator))

/-- Modelled from the spec: `applySectionValueToDate` of `useField.utils`
(not under `src/`) copies one logical component — year, month, day, hour,
minute, second, or an AM/PM adjustment of the hour for a meridiem section —
onto a date.  The spec's merge list names no component for week-day sections,
which therefore leave the date unchanged. -/
def applySectionValueToDate {TDate : Type} (utils : FieldAdapter TDate) (date : TDate)
    (dateSectionName : DateSectionName)
    (getNumericSectionValue : (TDate → Int) → Int)
    (getMeridiemSectionValue : Unit → String) : TDate :=
  match dateSectionName with
  | DateSectionName.year => utils.setYear date (getNumericSectionValue utils.getYear)
  | DateSectionName.month => utils.setMonth date (getNumericSectionValue utils.getMonth)
  | DateSectionName.day => utils.setDate date (getNumericSectionValue utils.getDate)
  | DateSectionName.hours => utils.setHours date (getNumericSectionValue utils.getHours)
  | DateSectionName.minutes => utils.setMinutes date (getNumericSectionValue utils.getMinutes)
  | DateSectionName.seconds => utils.setSeconds date (getNumericSectionValue utils.getSeconds)
  | DateSectionName.meridiem =>
    let meridiem := getMeridiemSectionValue ()
    let hours := utils.getHours date
    if meridiem = "AM" ∧ hours ≥ 12 then utils.setHours date (hours - 12)
    else if meridiem = "PM" ∧ hours < 12 then utils.setHours date (hours + 12)
    else date
  | DateSectionName.weekDay => date

/-- Replace the value of every day section, keeping all other sections. -/
def setDaySectionValue (sections : List ESection) (v : String) : List ESection :=
  sections.map (fun s =>
    if s.dateSectionName == DateSectionName.day then { s with value := v } else s)

/-- Modelled from the spec: `clampDaySection` of `useField.utils` (not under
`src/`) implements the day-clamp recovery — assume the day value exceeds the
month length, recover the month/year context by re-parsing with a safe day of
"1", and when that parse succeeds return the sections with the day forced
down to the externally supplied maximum for that month/year (`null`
otherwise). -/
def clampDaySection {TDate : Type} (utils : FieldAdapter TDate)
    (sections : List ESection) (boundaries : Boundaries TDate) (format : String) :
    Option (List ESection) :=
  let probeSections := setDaySectionValue sections ("1")
  match utils.parse (createDateStrFromSections probeSections) format with
  | none => none
  | some probeDate =>
    if utils.isValid (some probeDate) then
      some (setDaySectionValue sections (toString (boundaries.maxDayFor probeDate)))
    else none

/-! ## Section State Engine: operations -/

/-- The source function `publishValue`: rebuild the sections from the published
value, store the new value pair, clear the android fallback, and fire the
external change notification (the second component). -/
def publishValue {TValue TDate : Type} (env : EngineEnv TValue TDate)
    (state : EngineState TValue) (value referenceValue : TValue) :
    EngineState TValue × Option TValue :=
  ({ sections := env.fvm.getSectionsFromValue env.utils (some state.sections) value env.format
     value := value
     referenceValue := referenceValue
     tempValueStrAndroid := none },
   some value)

/-- The source function `clearValue`. -/
def clearValue {TValue TDate : Type} (env : EngineEnv TValue TDate)
    (state : EngineState TValue) : EngineState TValue × Option TValue :=
  publishValue env state env.emptyValue state.referenceValue

/-- The source function `clearActiveSection`: no-op without a selection; otherwise
blank the selected section's text and recompute the active date as null. -/
def clearActiveSection {TValue TDate : Type} (env : EngineEnv TValue TDate)
    (state : EngineState TValue) (selectedSectionIndexes : Option SelIdx) :
    EngineState TValue :=
  match selectedSectionIndexes with
  | none => state
  | some sel =>
    let activeSection := state.sections.getD sel.startIndex default
    let adm := env.fvm.getActiveDateManager env.utils state activeSection
    let newSections := setSectionValue state.sections sel.startIndex ("")
    let vr := adm.getNewValueFromNewActiveDate none
    { state with sections := newSections, value := vr.1, referenceValue := vr.2 }

/-- The candidate-date computation of `updateSectionValue`'s invalid-date
path (lines 197-210 of the source): parse the concatenated active-date
sections, and when that fails with every section filled and a day section
present, retry once through the day-clamp recovery. -/
def candidateDate {TValue TDate : Type} (env : EngineEnv TValue TDate)
    (activeDateSections : List ESection) : Option TDate :=
  let newDate := env.utils.parse (createDateStrFromSections activeDateSections) env.format
  if !(env.utils.isValid newDate) &&
      activeDateSections.all (fun s => s.value != "") &&
      activeDateSections.any (fun s => s.dateSectionName == DateSectionName.day) then
    match clampDaySection env.utils activeDateSections env.boundaries env.format with
    | some cleanSections =>
      env.utils.parse (createDateStrFromSections cleanSections) env.format
    | none => newDate
  else newDate

/-- The merge loop of `updateSectionValue` (lines 213-225 of the source):
fold over the active-date sections, copying each edited section's logical
component from the candidate date onto the running merged date; the meridiem
getter closure reads the hour of the *current merged date*. -/
def mergeEditedSections {TDate : Type} (utils : FieldAdapter TDate) (newDate : TDate)
    (activeDateSections : List ESection) (referenceActiveDate : TDate) : TDate :=
  activeDateSections.foldl
    (fun mergedDate sec =>
      if sec.edited then
        applySectionValueToDate utils mergedDate sec.dateSectionName
          (fun getter => getter newDate)
          (fun _ => if utils.getHours mergedDate < 12 then "AM" else "PM")
      else mergedDate)
    referenceActiveDate

/-- The invalid-date path of `updateSectionValue` (lines 193-235 of the
source), entered once the selection's start index has been read through the
non-null assertion. -/
def updateSectionValueOnInvalidDate {TValue TDate : Type} (env : EngineEnv TValue TDate)
    (state : EngineState TValue) (adm : ActiveDateManager TValue TDate)
    (collapsedSelection : Option Nat) (sel : SelIdx) (activeSection : ESection)
    (setSectionValueOnSections : Boundaries TDate → String) : EngineResult TValue :=
  let newSectionValue := setSectionValueOnSections env.boundaries
  let newSections := setSectionValue state.sections sel.startIndex newSectionValue
  let activeDateSections := env.fvm.getActiveDateSections newSections activeSection
  let newDate := candidateDate env activeDateSections
  match newDate with
  | some nd =>
    if env.utils.isValid (some nd) then
      let mergedDate := mergeEditedSections env.utils nd activeDateSections
        adm.referenceActiveDate
      let vr := adm.getNewValueFromNewActiveDate (some mergedDate)
      let stpub := publishValue env state vr.1 vr.2
      { state := stpub.1, published := stpub.2, collapsedSelection := collapsedSelection }
    else
      let vr := adm.getNewValueFromNewActiveDate (some nd)
      { state :=
          { sections := newSections
            value := vr.1
            referenceValue := vr.2
            tempValueStrAndroid := none }
        published := none
        collapsedSelection := collapsedSelection }
  | none =>
    let vr := adm.getNewValueFromNewActiveDate none
    { state :=
        { sections := newSections
          value := vr.1
          referenceValue := vr.2
          tempValueStrAndroid := none }
      published := none
      collapsedSelection := collapsedSelection }

/-- The source function `updateSectionValue`.  A multi-section selection is first
collapsed to its start index; a valid active date is updated through
`setSectionValueOnDate` and published; otherwise the invalid-date path runs.
Reading the selection through the source's non-null assertion with no
selection present is the error case. -/
def updateSectionValue {TValue TDate : Type} (env : EngineEnv TValue TDate)
    (state : EngineState TValue) (selectedSectionIndexes : Option SelIdx)
    (activeSection : ESection)
    (setSectionValueOnDate : TDate → Boundaries TDate → TDate)
    (setSectionValueOnSections : Boundaries TDate → String) :
    Except String (EngineResult TValue) :=
  let adm := env.fvm.getActiveDateManager env.utils state activeSection
  let collapsedSelection : Option Nat :=
    match selectedSectionIndexes with
    | some sel => if sel.startIndex ≠ sel.endIndex then some sel.startIndex else none
    | none => none
  let onInvalidDate : Unit → Except String (EngineResult TValue) := fun _ =>
    match selectedSectionIndexes with
    | none =>
      Except.error ("TypeError: cannot read startIndex, selectedSectionIndexes is null")
    | some sel =>
      Except.ok (updateSectionValueOnInvalidDate env state adm collapsedSelection sel
        activeSection setSectionValueOnSections)
  match adm.activeDate with
  | some activeDate =>
    if env.utils.isValid (some activeDate) then
      let newDate := setSectionValueOnDate activeDate env.boundaries
      let vr := adm.getNewValueFromNewActiveDate (some newDate)
      let stpub := publishValue env state vr.1 vr.2
      Except.ok
        { state := stpub.1, published := stpub.2, collapsedSelection := collapsedSelection }
    else onInvalidDate ()
  | none => onInvalidDate ()

/-- The source function `setTempAndroidValueStr`. -/
def setTempAndroidValueStr {TValue : Type} (state : EngineState TValue)
    (tempValueStrAndroid : String) : EngineState TValue :=
  { state with tempValueStrAndroid := some tempValueStrAndroid }

/-- The external-value resynchronization effect of the source (lines
241-260): when the outside value differs by the value manager's equality,
rebuild the sections from it and refresh the reference value. -/
def resyncValue {TValue TDate : Type} (env : EngineEnv TValue TDate)
    (state : EngineState TValue) (valueFromTheOutside : TValue) : EngineState TValue :=
  if env.areValuesEqual state.value valueFromTheOutside then state
  else
    { state with
        value := valueFromTheOutside
        referenceValue := env.fvm.updateReferenceValue env.utils valueFromTheOutside
          state.referenceValue
        sections := env.fvm.getSectionsFromValue env.utils (some state.sections)
          valueFromTheOutside env.format }

/-! ## Concrete date model and single-value managers -/

/-- A concrete date with explicit components, used to instantiate the
engine's adapter so that component-level claims can be stated. -/
structure SDate where
  year : Int
  month : Int
  day : Int
  hour : Int
  minute : Int
  second : Int
deriving DecidableEq, Repr

instance : Inhabited SDate := ⟨⟨2000, 1, 1, 0, 0, 0⟩⟩

/-- The engine adapter over `SDate`: canonical component getters and setters,
validity as parse success (a parsed `SDate` is always a real date), and an
arbitrary parse function. -/
def stdFieldAdapter (parse : String → String → Option SDate) : FieldAdapter SDate :=
  { parse := parse
    isValid := Option.isSome
    getYear := SDate.year
    getMonth := SDate.month
    getDate := SDate.day
    getHours := SDate.hour
    getMinutes := SDate.minute
    getSeconds := SDate.second
    setYear := fun d v => { d with year := v }
    setMonth := fun d v => { d with month := v }
    setDate := fun d v => { d with day := v }
    setHours := fun d v => { d with hour := v }
    setMinutes := fun d v => { d with minute := v }
    setSeconds := fun d v => { d with second := v } }

/-- Modelled from the spec: the single-value field value manager of §6 (not
under `src/`).  The value is the one date (nullable); the reference active
date is the guaranteed-valid reference value; a new active date becomes the
new value, and becomes the new reference value only when valid; all sections
belong to the single date unit.  The section re-derivation function is the
collaborator `getSectionsFromValue` and stays a parameter. -/
def singleItemFieldValueManager
    (gs : FieldAdapter SDate → Option (List ESection) → Option SDate → String → List ESection) :
    FieldValueManager (Option SDate) SDate :=
  { getSectionsFromValue := gs
    updateReferenceValue := fun u v fallback =>
      match v with
      | none => fallback
      | some d => if u.isValid (some d) then some d else fallback
    getActiveDateManager := fun u state _ =>
      { activeDate := state.value
        referenceActiveDate := state.referenceValue.getD default
        getNewValueFromNewActiveDate := fun d =>
          (d,
            match d with
            | none => state.referenceValue
            | some nd => if u.isValid (some nd) then some nd else state.referenceValue) }
    getActiveDateSections := fun sections _ => sections }

/-- The engine environment for a single-value field over `SDate`. -/
def stdEnv (parse : String → String → Option SDate)
    (gs : FieldAdapter SDate → Option (List ESection) → Option SDate → String → List ESection)
    (format : String) (boundaries : Boundaries SDate) : EngineEnv (Option SDate) SDate :=
  { utils := stdFieldAdapter parse
    format := format
    boundaries := boundaries
    emptyValue := none
    areValuesEqual := fun a b => a == b
    fvm := singleItemFieldValueManager gs }

/-! ## Merge-loop characterization over the concrete adapter -/

/-- Whether some section of the list is edited and carries the given
date-section name. -/
def editedComponent (l : List ESection) (n : DateSectionName) : Bool :=
  l.any (fun s => s.edited && s.dateSectionName == n)

theorem applyMeridiem_current (parse : String → String → Option SDate) (d : SDate)
    (g : (SDate → Int) → Int) :
    applySectionValueToDate (stdFieldAdapter parse) d DateSectionName.meridiem g
      (fun _ => if (stdFieldAdapter parse).getHours d < 12 then "AM" else "PM") = d := by
  simp only [applySectionValueToDate, stdFieldAdapter]
  by_cases h : d.hour < 12
  · rw [if_pos h]
    rw [if_neg (by simp; omega)]
    rw [if_neg (by simp)]
  · rw [if_neg h]
    rw [if_neg (by simp)]
    rw [if_neg (by simp; omega)]

/-- The merged date is characterized component-by-component: each of the six
numeric components is the candidate's when some edited section carries that
component's name and the reference's otherwise; edited meridiem and week-day
sections leave the merged date unchanged. -/
theorem mergeEditedSections_components (parse : String → String → Option SDate)
    (cand : SDate) (l : List ESection) (ref : SDate) :
    mergeEditedSections (stdFieldAdapter parse) cand l ref =
      { year := if editedComponent l DateSectionName.year then cand.year else ref.year
        month := if editedComponent l DateSectionName.month then cand.month else ref.month
        day := if editedComponent l DateSectionName.day then cand.day else ref.day
        hour := if editedComponent l DateSectionName.hours then cand.hour else ref.hour
        minute := if editedComponent l DateSectionName.minutes then cand.minute else ref.minute
        second := if editedComponent l DateSectionName.seconds then cand.second else ref.second } := by
  induction l generalizing ref with
  | nil => simp [mergeEditedSections, editedComponent]
  | cons s t ih =>
    have hstep : mergeEditedSections (stdFieldAdapter parse) cand (s :: t) ref =
        mergeEditedSections (stdFieldAdapter parse) cand t
          (if s.edited then
            applySectionValueToDate (stdFieldAdapter parse) ref s.dateSectionName
              (fun getter => getter cand)
              (fun _ => if (stdFieldAdapter parse).getHours ref < 12 then "AM" else "PM")
          else ref) := rfl
    rw [hstep]
    by_cases he : s.edited
    · rw [if_pos he]
      cases hn : s.dateSectionName with
      | year =>
        rw [ih]
        simp [editedComponent, applySectionValueToDate, stdFieldAdapter, he, hn, beq_iff_eq]
      | month =>
        rw [ih]
        simp [editedComponent, applySectionValueToDate, stdFieldAdapter, he, hn, beq_iff_eq]
      | day =>
        rw [ih]
        simp [editedComponent, applySectionValueToDate, stdFieldAdapter, he, hn, beq_iff_eq]
      | hours =>
        rw [ih]
        simp [editedComponent, applySectionValueToDate, stdFieldAdapter, he, hn, beq_iff_eq]
      | minutes =>
        rw [ih]
        simp [editedComponent, applySectionValueToDate, stdFieldAdapter, he, hn, beq_iff_eq]
      | seconds =>
        rw [ih]
        simp [editedComponent, applySectionValueToDate, stdFieldAdapter, he, hn, beq_iff_eq]
      | meridiem =>
        rw [applyMeridiem_current, ih]
        simp [editedComponent, he, hn, beq_iff_eq]
      | weekDay =>
        have hw : applySectionValueToDate (stdFieldAdapter parse) ref DateSectionName.weekDay
            (fun getter => getter cand)
            (fun _ => if (stdFieldAdapter parse).getHours ref < 12 then "AM" else "PM") = ref :=
          rfl
        rw [hw, ih]
        simp [editedComponent, he, hn, beq_iff_eq]
    · rw [if_neg he]
      rw [ih]
      have hne : s.edited = false := by simpa using he
      simp [editedComponent, hne]

theorem editedComponent_eq_true_of (l : List ESection) (n : DateSectionName)
    (s : ESection) (hs : s ∈ l) (he : s.edited = true) (hn : s.dateSectionName = n) :
    editedComponent l n = true := by
  rw [editedComponent, List.any_eq_true]
  exact ⟨s, hs, by simp [he, hn]⟩

theorem editedComponent_eq_false_of (l : List ESection) (n : DateSectionName)
    (h : ∀ s ∈ l, s.edited = true → s.dateSectionName ≠ n) :
    editedComponent l n = false := by
  rw [editedComponent, List.any_eq_false]
  intro s hs
  simp only [Bool.and_eq_true, beq_iff_eq, not_and]
  intro he
  exact h s hs he

theorem stdEnv_utils (parse gs format b) :
    (stdEnv parse gs format b).utils = stdFieldAdapter parse := rfl

theorem stdEnv_fvm (parse gs format b) :
    (stdEnv parse gs format b).fvm = singleItemFieldValueManager gs := rfl

theorem stdEnv_format (parse gs format b) : (stdEnv parse gs format b).format = format := rfl

theorem stdEnv_boundaries (parse gs format b) :
    (stdEnv parse gs format b).boundaries = b := rfl

theorem stdEnv_emptyValue (parse gs format b) :
    (stdEnv parse gs format b).emptyValue = none := rfl

theorem stdFieldAdapter_parse (parse) : (stdFieldAdapter parse).parse = parse := rfl

theorem stdFieldAdapter_isValid (parse) :
    (stdFieldAdapter parse).isValid = Option.isSome := rfl

theorem singleFVM_activeDate (gs u state sec) :
    ((singleItemFieldValueManager gs).getActiveDateManager u state sec).activeDate =
      state.value := rfl

theorem singleFVM_refActiveDate (gs u state sec) :
    ((singleItemFieldValueManager gs).getActiveDateManager u state sec).referenceActiveDate =
      state.referenceValue.getD default := rfl

theorem singleFVM_getNew (gs u state sec d) :
    ((singleItemFieldValueManager gs).getActiveDateManager u state sec).getNewValueFromNewActiveDate d =
      (d, match d with
          | none => state.referenceValue
          | some nd => if u.isValid (some nd) then some nd else state.referenceValue) := rfl

theorem singleFVM_activeSections (gs l sec) :
    (singleItemFieldValueManager gs).getActiveDateSections l sec = l := rfl

/-! ## Claim C1 -/

/-- C1: in `updateSectionValue`'s invalid-date path, with a valid reference
value and an edit after which only month sections are marked modified, the
published value keeps the reference date's year, day, hour, minute and
second, and its month is the candidate date's month (so only the month can
differ). -/
theorem updateSectionValue_month_merge
    (parse : String → String → Option SDate)
    (gs : FieldAdapter SDate → Option (List ESection) → Option SDate → String → List ESection)
    (format : String) (b : Boundaries SDate)
    (state : EngineState (Option SDate)) (sel : SelIdx) (activeSection : ESection)
    (f : SDate → Boundaries SDate → SDate) (g : Boundaries SDate → String)
    (ref cand : SDate)
    (hval : state.value = none)
    (href : state.referenceValue = some ref)
    (hparse : parse (createDateStrFromSections
        (setSectionValue state.sections sel.startIndex (g b))) format = some cand)
    (hmod : ∀ s ∈ setSectionValue state.sections sel.startIndex (g b),
        s.edited = true → s.dateSectionName = DateSectionName.month)
    (hsome : ∃ s ∈ setSectionValue state.sections sel.startIndex (g b), s.edited = true) :
    ∃ r, updateSectionValue (stdEnv parse gs format b) state (some sel) activeSection f g =
        Except.ok r ∧
      r.published =
        some (some ⟨ref.year, cand.month, ref.day, ref.hour, ref.minute, ref.second⟩) := by
  have hmerge : mergeEditedSections (stdFieldAdapter parse) cand
      (setSectionValue state.sections sel.startIndex (g b)) ref =
      ⟨ref.year, cand.month, ref.day, ref.hour, ref.minute, ref.second⟩ := by
    rw [mergeEditedSections_components]
    obtain ⟨s, hs, he⟩ := hsome
    have hmonth := editedComponent_eq_true_of _ DateSectionName.month s hs he (hmod s hs he)
    have hyear := editedComponent_eq_false_of _ DateSectionName.year
      (fun s' hs' he' => by rw [hmod s' hs' he']; intro hcontra; cases hcontra)
    have hday := editedComponent_eq_false_of _ DateSectionName.day
      (fun s' hs' he' => by rw [hmod s' hs' he']; intro hcontra; cases hcontra)
    have hhours := editedComponent_eq_false_of _ DateSectionName.hours
      (fun s' hs' he' => by rw [hmod s' hs' he']; intro hcontra; cases hcontra)
    have hminutes := editedComponent_eq_false_of _ DateSectionName.minutes
      (fun s' hs' he' => by rw [hmod s' hs' he']; intro hcontra; cases hcontra)
    have hseconds := editedComponent_eq_false_of _ DateSectionName.seconds
      (fun s' hs' he' => by rw [hmod s' hs' he']; intro hcontra; cases hcontra)
    rw [hmonth, hyear, hday, hhours, hminutes, hseconds]
    simp
  simp only [updateSectionValue, stdEnv_fvm, stdEnv_utils, stdEnv_format, stdEnv_boundaries,
    singleFVM_activeDate, hval]
  simp only [updateSectionValueOnInvalidDate, candidateDate, stdEnv_fvm, stdEnv_utils,
    stdEnv_format, stdEnv_boundaries, singleFVM_activeSections, stdFieldAdapter_parse,
    stdFieldAdapter_isValid, singleFVM_refActiveDate, singleFVM_getNew, hparse, href,
    Option.isSome_some, Bool.not_true, Bool.false_and, Bool.false_eq_true, if_false,
    Option.getD_some]
  rw [hmerge]
  refine ⟨_, rfl, ?_⟩
  simp [publishValue]

/-! ## Concrete engine scenarios for witnesses and counterexamples -/

/-- Build an engine section with the given name, value and edited flag. -/
def mkSec (n : DateSectionName) (v endSep : String) (e : Bool) : ESection :=
  { dateSectionName := n
    value := v
    placeholder := ""
    startSeparator := ""
    endSeparator := endSep
    edited := e
    start := 0
    stop := 0 }

/-- A section re-derivation collaborator that returns no sections; the
engine's published values do not depend on it. -/
def emptyGs : FieldAdapter SDate → Option (List ESection) → Option SDate → String → List ESection :=
  fun _ _ _ _ => []

/-- A boundaries provider with a constant maximal day. -/
def fixedBoundaries : Boundaries SDate := ⟨fun _ => 31⟩

/-- A section-on-date updater that is never reached in the invalid-date
scenarios. -/
def idOnDate : SDate → Boundaries SDate → SDate := fun d _ => d

/-- Parse function for the C1 witness: only the edited month text parses. -/
def w1parse : String → String → Option SDate :=
  fun s _ => if s = "05" then some ⟨2022, 5, 15, 10, 20, 30⟩ else none

/-- State for the C1 witness: one month section, no value, a valid reference
date. -/
def w1state : EngineState (Option SDate) :=
  { sections := [mkSec DateSectionName.month ("04") ("") false]
    value := none
    referenceValue := some ⟨2022, 4, 15, 10, 20, 30⟩
    tempValueStrAndroid := none }

/-- Witness for C1: editing the only (month) section to "05" publishes a date
that keeps the reference's year, day, hour, minute and second and takes the
candidate's month. -/
theorem updateSectionValue_month_merge_witness :
    ∃ r, updateSectionValue (stdEnv w1parse emptyGs ("MM") fixedBoundaries) w1state
        (some ⟨0, 0⟩) (mkSec DateSectionName.month ("04") ("") false) idOnDate
        (fun _ => "05") = Except.ok r ∧
      r.published = some (some ⟨2022, 5, 15, 10, 20, 30⟩) :=
  updateSectionValue_month_merge w1parse emptyGs ("MM") fixedBoundaries w1state ⟨0, 0⟩
    (mkSec DateSectionName.month ("04") ("") false) idOnDate (fun _ => "05")
    ⟨2022, 4, 15, 10, 20, 30⟩ ⟨2022, 5, 15, 10, 20, 30⟩
    rfl rfl (by decide) (by decide) (by decide)

/-! ## Claim C2 -/

/-- Helper to read the published value of an engine run. -/
def publishedValue {TValue : Type} (r : Except String (EngineResult TValue)) :
    Option TValue :=
  match r with
  | Except.ok res => res.published
  | Except.error _ => none

/-- Parse function for the C2 counterexample: hour and meridiem sections
concatenate to "03 PM", whose candidate date has hour 15. -/
def cex2parse : String → String → Option SDate :=
  fun s _ => if s = "03 PM" then some ⟨2022, 1, 1, 15, 0, 0⟩ else none

/-- State for the C2 counterexample: an hour section "03" and a meridiem
section, no value, reference date with hour 3. -/
def cex2state : EngineState (Option SDate) :=
  { sections := [mkSec DateSectionName.hours ("03") (" ") false,
                 mkSec DateSectionName.meridiem ("AM") ("") false]
    value := none
    referenceValue := some ⟨2022, 1, 1, 3, 0, 0⟩
    tempValueStrAndroid := none }

/-- Counterexample for C2: the user edits only the meridiem section to "PM";
the candidate date parsed from the sections has hour 15 (PM), yet the
published date keeps hour 3 (AM).  The meridiem getter of the merge loop
reads the hour of the merged date being built — not the candidate date — so
the AM/PM of a modified meridiem section is not copied from the candidate. -/
theorem updateSectionValue_meridiem_cex :
    publishedValue (updateSectionValue (stdEnv cex2parse emptyGs ("hh aa") fixedBoundaries)
        cex2state (some ⟨1, 1⟩) (mkSec DateSectionName.meridiem ("AM") ("") false) idOnDate
        (fun _ => "PM")) = some (some ⟨2022, 1, 1, 3, 0, 0⟩) ∧
    cex2parse (createDateStrFromSections (setSectionValue cex2state.sections 1 "PM"))
        ("hh aa") = some ⟨2022, 1, 1, 15, 0, 0⟩ ∧
    ((3 : Int) < 12 ∧ (12 : Int) ≤ 15) := by
  refine ⟨by decide, by decide, by decide, by decide⟩

/-- C2 (amended): in `updateSectionValue`'s invalid-date path with a valid
candidate date, the published date's year, month, day, hour, minute and
second components are each copied from the candidate exactly when some
modified section carries that component, and kept from the reference
otherwise; a modified meridiem section applies the AM/PM derived from the
merged date's own current hour — leaving the merged date unchanged — rather
than the candidate's. -/
theorem updateSectionValue_copies_modified_components
    (parse : String → String → Option SDate)
    (gs : FieldAdapter SDate → Option (List ESection) → Option SDate → String → List ESection)
    (format : String) (b : Boundaries SDate)
    (state : EngineState (Option SDate)) (sel : SelIdx) (activeSection : ESection)
    (f : SDate → Boundaries SDate → SDate) (g : Boundaries SDate → String)
    (ref cand : SDate)
    (hval : state.value = none)
    (href : state.referenceValue = some ref)
    (hparse : parse (createDateStrFromSections
        (setSectionValue state.sections sel.startIndex (g b))) format = some cand) :
    ∃ r, updateSectionValue (stdEnv parse gs format b) state (some sel) activeSection f g =
        Except.ok r ∧
      r.published = some (some
        { year :=
            if editedComponent (setSectionValue state.sections sel.startIndex (g b))
              DateSectionName.year then cand.year else ref.year
          month :=
            if editedComponent (setSectionValue state.sections sel.startIndex (g b))
              DateSectionName.month then cand.month else ref.month
          day :=
            if editedComponent (setSectionValue state.sections sel.startIndex (g b))
              DateSectionName.day then cand.day else ref.day
          hour :=
            if editedComponent (setSectionValue state.sections sel.startIndex (g b))
              DateSectionName.hours then cand.hour else ref.hour
          minute :=
            if editedComponent (setSectionValue state.sections sel.startIndex (g b))
              DateSectionName.minutes then cand.minute else ref.minute
          second :=
            if editedComponent (setSectionValue state.sections sel.startIndex (g b))
              DateSectionName.seconds then cand.second else ref.second }) := by
  simp only [updateSectionValue, stdEnv_fvm, stdEnv_utils, stdEnv_format, stdEnv_boundaries,
    singleFVM_activeDate, hval]
  simp only [updateSectionValueOnInvalidDate, candidateDate, stdEnv_fvm, stdEnv_utils,
    stdEnv_format, stdEnv_boundaries, singleFVM_activeSections, stdFieldAdapter_parse,
    stdFieldAdapter_isValid, singleFVM_refActiveDate, singleFVM_getNew, hparse, href,
    Option.isSome_some, Bool.not_true, Bool.false_and, Bool.false_eq_true, if_false,
    Option.getD_some]
  rw [mergeEditedSections_components]
  refine ⟨_, rfl, ?_⟩
  simp [publishValue]

/-- Parse function for the C2 witness: the minutes text parses to a candidate
with minute 45. -/
def w2parse : String → String → Option SDate :=
  fun s _ => if s = "45" then some ⟨2022, 1, 1, 0, 45, 0⟩ else none

/-- State for the C2 witness: one minutes section, no value, valid
reference. -/
def w2state : EngineState (Option SDate) :=
  { sections := [mkSec DateSectionName.minutes ("00") ("") false]
    value := none
    referenceValue := some ⟨2021, 3, 4, 5, 6, 7⟩
    tempValueStrAndroid := none }

/-- Witness for C2 (amended): editing only the minutes section copies only
the minute component from the candidate. -/
theorem updateSectionValue_copies_modified_components_witness :
    ∃ r, updateSectionValue (stdEnv w2parse emptyGs ("mm") fixedBoundaries) w2state
        (some ⟨0, 0⟩) (mkSec DateSectionName.minutes ("00") ("") false) idOnDate
        (fun _ => "45") = Except.ok r ∧
      r.published = some (some ⟨2021, 3, 4, 5, 45, 7⟩) := by
  obtain ⟨r, h1, h2⟩ := updateSectionValue_copies_modified_components w2parse emptyGs ("mm")
    fixedBoundaries w2state ⟨0, 0⟩ (mkSec DateSectionName.minutes ("00") ("") false) idOnDate
    (fun _ => "45") ⟨2021, 3, 4, 5, 6, 7⟩ ⟨2022, 1, 1, 0, 45, 0⟩ rfl rfl (by decide)
  refine ⟨r, h1, ?_⟩
  rw [h2]
  decide

/-! ## Claim C3 -/

/-- C3: in `updateSectionValue`'s invalid-date path with a failing direct
parse, the day-clamp recovery runs exactly when every section is non-empty
and a day section is present: in that case, when the probe parse recovers the
month context and the re-parse with the day forced to the externally supplied
maximum succeeds, the recovered date is merged and published; when the
filled/day-present condition fails, nothing is published. -/
theorem updateSectionValue_day_clamp
    (parse : String → String → Option SDate)
    (gs : FieldAdapter SDate → Option (List ESection) → Option SDate → String → List ESection)
    (format : String) (b : Boundaries SDate)
    (state : EngineState (Option SDate)) (sel : SelIdx) (activeSection : ESection)
    (f : SDate → Boundaries SDate → SDate) (g : Boundaries SDate → String)
    (ref : SDate)
    (hval : state.value = none)
    (href : state.referenceValue = some ref)
    (hdirect : parse (createDateStrFromSections
        (setSectionValue state.sections sel.startIndex (g b))) format = none) :
    (((setSectionValue state.sections sel.startIndex (g b)).all
          (fun s => s.value != "") = true) →
      ((setSectionValue state.sections sel.startIndex (g b)).any
          (fun s => s.dateSectionName == DateSectionName.day) = true) →
      ∀ probeD cand,
        parse (createDateStrFromSections (setDaySectionValue
            (setSectionValue state.sections sel.startIndex (g b)) "1")) format =
          some probeD →
        parse (createDateStrFromSections (setDaySectionValue
            (setSectionValue state.sections sel.startIndex (g b))
            (toString (b.maxDayFor probeD)))) format = some cand →
        ∃ r, updateSectionValue (stdEnv parse gs format b) state (some sel) activeSection
            f g = Except.ok r ∧
          r.published = some (some (mergeEditedSections (stdFieldAdapter parse) cand
            (setSectionValue state.sections sel.startIndex (g b)) ref))) ∧
    ((((setSectionValue state.sections sel.startIndex (g b)).all
          (fun s => s.value != "")) &&
        ((setSectionValue state.sections sel.startIndex (g b)).any
          (fun s => s.dateSectionName == DateSectionName.day))) = false →
      ∃ r, updateSectionValue (stdEnv parse gs format b) state (some sel) activeSection
          f g = Except.ok r ∧
        r.published = none) := by
  constructor
  · intro hall hday probeD cand hprobe hre
    simp only [updateSectionValue, stdEnv_fvm, stdEnv_utils, stdEnv_format, stdEnv_boundaries,
      singleFVM_activeDate, hval]
    simp only [updateSectionValueOnInvalidDate, candidateDate, clampDaySection, stdEnv_fvm,
      stdEnv_utils, stdEnv_format, stdEnv_boundaries, singleFVM_activeSections,
      stdFieldAdapter_parse, stdFieldAdapter_isValid, singleFVM_refActiveDate,
      singleFVM_getNew, hdirect, hall, hday, hprobe, hre, href,
      Option.isSome_none, Option.isSome_some, Bool.not_false, Bool.true_and, Bool.and_true,
      Option.getD_some, if_true]
    refine ⟨_, rfl, ?_⟩
    simp [publishValue]
  · intro hfalse
    simp only [updateSectionValue, stdEnv_fvm, stdEnv_utils, stdEnv_format, stdEnv_boundaries,
      singleFVM_activeDate, hval]
    simp only [updateSectionValueOnInvalidDate, candidateDate, stdEnv_fvm, stdEnv_utils,
      stdEnv_format, stdEnv_boundaries, singleFVM_activeSections, stdFieldAdapter_parse,
      stdFieldAdapter_isValid, singleFVM_refActiveDate, singleFVM_getNew, hdirect, href,
      Option.isSome_none, Bool.not_false, Bool.true_and, Option.getD_some]
    rw [hfalse]
    simp only [Bool.false_eq_true, if_false]
    refine ⟨_, rfl, rfl⟩

/-- Parse function for the C3 witness: "02/31/2023" fails, the probe
"02/1/2023" recovers the February 2023 context, and the clamped
"02/28/2023" parses. -/
def w3parse : String → String → Option SDate :=
  fun s _ =>
    if s = "02/1/2023" then some ⟨2023, 2, 1, 0, 0, 0⟩
    else if s = "02/28/2023" then some ⟨2023, 2, 28, 0, 0, 0⟩
    else none

/-- Boundaries for the C3 witness: February 2023 has 28 days. -/
def w3boundaries : Boundaries SDate :=
  ⟨fun d => if d.month = 2 ∧ d.year = 2023 then 28 else 31⟩

/-- State for the C3 witness: month=02, day and year sections filled, all
user-edited. -/
def w3state : EngineState (Option SDate) :=
  { sections := [mkSec DateSectionName.month ("02") ("/") true,
                 mkSec DateSectionName.day ("30") ("/") false,
                 mkSec DateSectionName.year ("2023") ("") true]
    value := none
    referenceValue := some ⟨2000, 1, 1, 0, 0, 0⟩
    tempValueStrAndroid := none }

/-- Witness for C3: month=02, day=31, year=2023 fails to parse directly; the
clamp recovery retries with day=28 and publishes Feb 28 2023. -/
theorem updateSectionValue_day_clamp_witness :
    ∃ r, updateSectionValue (stdEnv w3parse emptyGs ("MM/dd/yyyy") w3boundaries) w3state
        (some ⟨1, 1⟩) (mkSec DateSectionName.day ("30") ("/") false) idOnDate
        (fun _ => "31") = Except.ok r ∧
      r.published = some (some ⟨2023, 2, 28, 0, 0, 0⟩) := by
  obtain ⟨r, h1, h2⟩ := (updateSectionValue_day_clamp w3parse emptyGs ("MM/dd/yyyy")
    w3boundaries w3state ⟨1, 1⟩ (mkSec DateSectionName.day ("30") ("/") false) idOnDate
    (fun _ => "31") ⟨2000, 1, 1, 0, 0, 0⟩ rfl rfl (by decide)).1 (by decide) (by decide)
    ⟨2023, 2, 1, 0, 0, 0⟩ ⟨2023, 2, 28, 0, 0, 0⟩ (by decide) (by decide)
  refine ⟨r, h1, ?_⟩
  rw [h2]
  decide

/-! ## Claim C4 -/

/-- C4: in `updateSectionValue`'s invalid-date path, when the candidate date
(after any day-clamp recovery) is still not a valid date, no value is
published — the result carries no external change notification — while the
new state keeps the edited section list, stores the possibly-null parsed date
through the active date manager, and clears the android fallback. -/
theorem updateSectionValue_still_invalid_keeps_state {TValue TDate : Type}
    (env : EngineEnv TValue TDate) (state : EngineState TValue) (sel : SelIdx)
    (activeSection : ESection) (f : TDate → Boundaries TDate → TDate)
    (g : Boundaries TDate → String)
    (hinv : ((env.fvm.getActiveDateManager env.utils state activeSection).activeDate.isSome &&
        env.utils.isValid
          (env.fvm.getActiveDateManager env.utils state activeSection).activeDate) = false)
    (hstill : ((candidateDate env (env.fvm.getActiveDateSections
            (setSectionValue state.sections sel.startIndex (g env.boundaries))
            activeSection)).isSome &&
        env.utils.isValid (candidateDate env (env.fvm.getActiveDateSections
            (setSectionValue state.sections sel.startIndex (g env.boundaries))
            activeSection))) = false) :
    updateSectionValue env state (some sel) activeSection f g =
      Except.ok
        { state :=
            { sections := setSectionValue state.sections sel.startIndex (g env.boundaries)
              value := ((env.fvm.getActiveDateManager env.utils state
                  activeSection).getNewValueFromNewActiveDate
                (candidateDate env (env.fvm.getActiveDateSections
                  (setSectionValue state.sections sel.startIndex (g env.boundaries))
                  activeSection))).1
              referenceValue := ((env.fvm.getActiveDateManager env.utils state
                  activeSection).getNewValueFromNewActiveDate
                (candidateDate env (env.fvm.getActiveDateSections
                  (setSectionValue state.sections sel.startIndex (g env.boundaries))
                  activeSection))).2
              tempValueStrAndroid := none }
          published := none
          collapsedSelection :=
            if sel.startIndex ≠ sel.endIndex then some sel.startIndex else none } := by
  have hinvalid : ∀ r, updateSectionValueOnInvalidDate env state
      (env.fvm.getActiveDateManager env.utils state activeSection)
      (if sel.startIndex ≠ sel.endIndex then some sel.startIndex else none) sel
      activeSection g = r →
      updateSectionValue env state (some sel) activeSection f g = Except.ok r := by
    intro r hr
    simp only [updateSectionValue]
    cases hd : (env.fvm.getActiveDateManager env.utils state activeSection).activeDate with
    | none => rw [← hr]
    | some d =>
      rw [hd] at hinv
      simp only [Option.isSome_some, Bool.true_and] at hinv
      simp only [hinv, Bool.false_eq_true, if_false]
      rw [← hr]
  apply hinvalid
  simp only [updateSectionValueOnInvalidDate]
  cases hc : candidateDate env (env.fvm.getActiveDateSections
      (setSectionValue state.sections sel.startIndex (g env.boundaries)) activeSection) with
  | none => rfl
  | some nd =>
    rw [hc] at hstill
    simp only [Option.isSome_some, Bool.true_and] at hstill
    simp only [hstill, Bool.false_eq_true, if_false]

/-- A parse function that never succeeds, for the C4 witness. -/
def w4parse : String → String → Option SDate := fun _ _ => none

/-- State for the C4 witness: one empty month section and no value. -/
def w4state : EngineState (Option SDate) :=
  { sections := [mkSec DateSectionName.month ("") ("") false]
    value := none
    referenceValue := some ⟨2022, 4, 15, 10, 20, 30⟩
    tempValueStrAndroid := none }

/-- Witness for C4: a failing parse keeps the edited text "1", publishes
nothing, stores the null parsed date and keeps the reference value. -/
theorem updateSectionValue_still_invalid_keeps_state_witness :
    updateSectionValue (stdEnv w4parse emptyGs ("MM") fixedBoundaries) w4state
        (some ⟨0, 0⟩) (mkSec DateSectionName.month ("") ("") false) idOnDate
        (fun _ => "1") =
      Except.ok
        { state :=
            { sections := [{ mkSec DateSectionName.month ("1") ("") true with stop := 1 }]
              value := none
              referenceValue := some ⟨2022, 4, 15, 10, 20, 30⟩
              tempValueStrAndroid := none }
          published := none
          collapsedSelection := none } := by
  have h := updateSectionValue_still_invalid_keeps_state
    (stdEnv w4parse emptyGs ("MM") fixedBoundaries) w4state ⟨0, 0⟩
    (mkSec DateSectionName.month ("") ("") false) idOnDate (fun _ => "1")
    (by decide) (by decide)
  exact h.trans (by decide)

/-! ## Claim C8 -/

/-- C8: `clearValue` publishes the value manager's empty sentinel — firing
the external change notification with it — while keeping the previous
`referenceValue` and rebuilding the sections from the published value, and
every publication through `publishValue` rebuilds the sections from the
value it publishes and fires the notification with that value. -/
theorem clearValue_spec {TValue TDate : Type} (env : EngineEnv TValue TDate)
    (state : EngineState TValue) :
    (clearValue env state).1 =
      { sections := env.fvm.getSectionsFromValue env.utils (some state.sections)
          env.emptyValue env.format
        value := env.emptyValue
        referenceValue := state.referenceValue
        tempValueStrAndroid := none } ∧
    (clearValue env state).2 = some env.emptyValue ∧
    (∀ v rv, (publishValue env state v rv).1.sections =
        env.fvm.getSectionsFromValue env.utils (some state.sections) v env.format ∧
      (publishValue env state v rv).1.value = v ∧
      (publishValue env state v rv).2 = some v) :=
  ⟨rfl, rfl, fun _ _ => ⟨rfl, rfl, rfl⟩⟩

/-! ## Claim C9 -/

/-- C9: when `updateSectionValue` runs with an invalid (or absent) active
date, the invalid-date path reads the selection through an unchecked
non-null assertion: with no selection the run fails with a type error, and
with any selection present the run succeeds. -/
theorem updateSectionValue_selection_safety {TValue TDate : Type}
    (env : EngineEnv TValue TDate) (state : EngineState TValue)
    (selectedSectionIndexes : Option SelIdx) (activeSection : ESection)
    (f : TDate → Boundaries TDate → TDate) (g : Boundaries TDate → String)
    (hinv : ((env.fvm.getActiveDateManager env.utils state activeSection).activeDate.isSome &&
        env.utils.isValid
          (env.fvm.getActiveDateManager env.utils state activeSection).activeDate) = false) :
    (selectedSectionIndexes = none →
      ∃ msg, updateSectionValue env state selectedSectionIndexes activeSection f g =
        Except.error msg) ∧
    (∀ sel, selectedSectionIndexes = some sel →
      ∃ r, updateSectionValue env state selectedSectionIndexes activeSection f g =
        Except.ok r) := by
  have honInvalid : ∀ (k : Except String (EngineResult TValue)),
      (match selectedSectionIndexes with
        | none => Except.error
            ("TypeError: cannot read startIndex, selectedSectionIndexes is null")
        | some sel => Except.ok (updateSectionValueOnInvalidDate env state
            (env.fvm.getActiveDateManager env.utils state activeSection)
            (match selectedSectionIndexes with
              | some sel' =>
                if sel'.startIndex ≠ sel'.endIndex then some sel'.startIndex else none
              | none => none) sel activeSection g)) = k →
      updateSectionValue env state selectedSectionIndexes activeSection f g = k := by
    intro k hk
    simp only [updateSectionValue]
    cases hd : (env.fvm.getActiveDateManager env.utils state activeSection).activeDate with
    | none => rw [← hk]
    | some d =>
      rw [hd] at hinv
      simp only [Option.isSome_some, Bool.true_and] at hinv
      simp only [hinv, Bool.false_eq_true, if_false]
      rw [← hk]
  constructor
  · intro hnone
    subst hnone
    exact ⟨_, honInvalid _ rfl⟩
  · intro sel hsome
    subst hsome
    exact ⟨_, honInvalid _ rfl⟩

/-- Witness for C9: with an invalid active date, the run with no selection
errors, and the run with a selection succeeds. -/
theorem updateSectionValue_selection_safety_witness :
    (∃ msg, updateSectionValue (stdEnv w4parse emptyGs ("MM") fixedBoundaries) w4state
        none (mkSec DateSectionName.month ("") ("") false) idOnDate (fun _ => "1") =
      Except.error msg) ∧
    (∃ r, updateSectionValue (stdEnv w4parse emptyGs ("MM") fixedBoundaries) w4state
        (some ⟨0, 0⟩) (mkSec DateSectionName.month ("") ("") false) idOnDate (fun _ => "1") =
      Except.ok r) := by
  constructor
  · exact (updateSectionValue_selection_safety (stdEnv w4parse emptyGs ("MM") fixedBoundaries)
      w4state none (mkSec DateSectionName.month ("") ("") false) idOnDate (fun _ => "1")
      (by decide)).1 rfl
  · exact (updateSectionValue_selection_safety (stdEnv w4parse emptyGs ("MM") fixedBoundaries)
      w4state (some ⟨0, 0⟩) (mkSec DateSectionName.month ("") ("") false) idOnDate (fun _ => "1")
      (by decide)).2 ⟨0, 0⟩ rfl

/-! ## Claim C10 -/

theorem updateSectionValueOnInvalidDate_temp {TValue TDate : Type}
    (env : EngineEnv TValue TDate) (state : EngineState TValue)
    (adm : ActiveDateManager TValue TDate) (cs : Option Nat) (sel : SelIdx)
    (activeSection : ESection) (g : Boundaries TDate → String) :
    (updateSectionValueOnInvalidDate env state adm cs sel activeSection
        g).state.tempValueStrAndroid = none := by
  simp only [updateSectionValueOnInvalidDate]
  cases candidateDate env (env.fvm.getActiveDateSections
      (setSectionValue state.sections sel.startIndex (g env.boundaries)) activeSection) with
  | none => rfl
  | some nd =>
    by_cases hv : env.utils.isValid (some nd)
    · simp only [hv, if_true]
      rfl
    · simp [hv]

/-- C10: the android fallback field is cleared by every publication
(`publishValue`, hence `clearValue` and both publishing paths of
`updateSectionValue`) and by the non-publishing invalid-edit path; only
`setTempAndroidValueStr` makes it non-null, storing its argument verbatim
and changing nothing else; external-value resynchronization — and section
clearing — leave it unchanged. -/
theorem tempValueStrAndroid_invariant {TValue TDate : Type} :
    (∀ (env : EngineEnv TValue TDate) (state : EngineState TValue) v rv,
      (publishValue env state v rv).1.tempValueStrAndroid = none) ∧
    (∀ (env : EngineEnv TValue TDate) (state : EngineState TValue),
      (clearValue env state).1.tempValueStrAndroid = none) ∧
    (∀ (env : EngineEnv TValue TDate) (state : EngineState TValue) sel activeSection f g r,
      updateSectionValue env state sel activeSection f g = Except.ok r →
      r.state.tempValueStrAndroid = none) ∧
    (∀ (state : EngineState TValue) s,
      setTempAndroidValueStr state s = { state with tempValueStrAndroid := some s }) ∧
    (∀ (env : EngineEnv TValue TDate) (state : EngineState TValue) v,
      (resyncValue env state v).tempValueStrAndroid = state.tempValueStrAndroid) ∧
    (∀ (env : EngineEnv TValue TDate) (state : EngineState TValue) sel,
      (clearActiveSection env state sel).tempValueStrAndroid =
        state.tempValueStrAndroid) := by
  refine ⟨fun _ _ _ _ => rfl, fun _ _ => rfl, ?_, fun _ _ => rfl, ?_, ?_⟩
  · intro env state sel activeSection f g r h
    simp only [updateSectionValue] at h
    cases hd : (env.fvm.getActiveDateManager env.utils state activeSection).activeDate with
    | some d =>
      rw [hd] at h
      by_cases hv : env.utils.isValid (some d)
      · simp only [hv, if_true] at h
        cases h
        rfl
      · simp only [hv, if_false] at h
        cases hs : sel with
        | none => rw [hs] at h; cases h
        | some s =>
          rw [hs] at h
          cases h
          exact updateSectionValueOnInvalidDate_temp env state _ _ s activeSection g
    | none =>
      rw [hd] at h
      cases hs : sel with
      | none => rw [hs] at h; cases h
      | some s =>
        rw [hs] at h
        cases h
        exact updateSectionValueOnInvalidDate_temp env state _ _ s activeSection g
  · intro env state v
    simp only [resyncValue]
    by_cases he : env.areValuesEqual state.value v
    · simp only [he, if_true]
    · simp [he]
  · intro env state sel
    cases sel with
    | none => rfl
    | some s => rfl

/-- Witness for C10: on a concrete non-publishing run of
`updateSectionValue`, the result's android fallback is null. -/
theorem tempValueStrAndroid_invariant_witness :
    ({ state :=
        { sections := [{ mkSec DateSectionName.month ("1") ("") true with stop := 1 }]
          value := (none : Option SDate)
          referenceValue := some ⟨2022, 4, 15, 10, 20, 30⟩
          tempValueStrAndroid := none }
       published := none
       collapsedSelection := none } : EngineResult (Option SDate)).state.tempValueStrAndroid
      = none :=
  (@tempValueStrAndroid_invariant (Option SDate) SDate).2.2.1
    (stdEnv w4parse emptyGs ("MM") fixedBoundaries) w4state (some ⟨0, 0⟩)
    (mkSec DateSectionName.month ("") ("") false) idOnDate (fun _ => "1") _ (by decide)

end MuiX
